import Mathlib

/-!
Verification of the hucksinoca construction-materials procurement app.

This file shallowly embeds the parts of the repository that the checked
properties are about:

* the stock ledger row shape and the client-side balance aggregator
  `stockBalances` (src/pages/NewRequest.tsx, lines 128-142);
* the stock `Receive`/`Deduct` mutations of the self-hosted Express backend
  (server/index.js, POST /api/stock and POST /api/stock/deduct) and of the
  Supabase edge function (supabase/functions/stock-api/index.ts);
* the request / item / approval tables of the self-hosted backend
  (server/db.js) together with the POST /api/approvals, POST /api/requests
  and DELETE /api/requests/:id handlers (server/index.js);
* the client-side form validation and submission of NewRequest.tsx
  (`validateForm`, `handleSubmit`, the `validItems` unit normalization);
* the dashboard metrics of both backends (server/index.js
  GET /api/dashboard/metrics and useDashboardMetrics in
  src/hooks/useDatabase.tsx).

Modelling conventions: JavaScript numbers holding ledger quantities are
modelled as `Int` (the claims under check only concern signs, sums and
counts, never float rounding); JS string falsiness (`s || t`) is modelled as
an emptiness test; the stable `Array.prototype.sort` with the comparator
`(a, b) => name(a).localeCompare(name(b))` is modelled as a stable insertion
sort by the lexicographic order on `String` (a stable sort's output is
determined by the comparator, so any stable sort is a faithful model);
generated row ids are passed in as explicit fresh strings, their values being
irrelevant to every property below.
-/

namespace Hucksinoca

/-! ### JS string primitives

`String.toLower`, `String.trim` and the `String` order of the standard
library are implemented over byte iterators and do not reduce inside the
kernel, so the JS string operations the code uses are modelled over
`String.data` (the character list): `toLowerCase` maps `Char.toLower` over
the characters (the inputs in play are ASCII), `trim` drops whitespace from
both ends, and the `localeCompare`-based comparator is the lexicographic
order on the character lists. -/

def jsToLowerCase (s : String) : String := ⟨s.data.map Char.toLower⟩

def jsTrim (s : String) : String :=
  ⟨((s.data.dropWhile Char.isWhitespace).reverse.dropWhile Char.isWhitespace).reverse⟩

/-- Lexicographic less-or-equal on character lists: the Boolean outcome of
`a.localeCompare(b) <= 0` for the plain code-point comparison that models it. -/
def strLeB : List Char → List Char → Bool
  | [], _ => true
  | _ :: _, [] => false
  | a :: as, b :: bs => if a < b then true else if b < a then false else strLeB as bs

/-! ### Stock ledger rows (shape produced by the stock list mapping in
NewRequest.tsx lines 104-111: item, description, qty, unit, category) -/

structure StockRow where
  item : String
  description : String
  qty : Int
  unit : String
  category : String
deriving DecidableEq, Repr

/-- The display name `si.item || si.description` of a row
(JS `||` takes the second operand when the first is the empty string). -/
def rowName (r : StockRow) : String :=
  if r.item = "" then r.description else r.item

/-- The grouping key `` `${name}__${si.unit}` `` of NewRequest.tsx line 133.
String concatenation reproduces the template literal exactly, including its
possible collisions between names containing `__`. -/
def rowKey (r : StockRow) : String :=
  rowName r ++ "__" ++ r.unit

/-- One step of the `for (const si of stockItems)` loop, acting on the
insertion-ordered entry list of the JS `Map`: if an entry with the same key
exists its qty is increased in place, otherwise the row is appended as a new
entry (JS `Map.set` appends at the end). -/
def addRow : List StockRow → StockRow → List StockRow
  | [], r => [r]
  | e :: es, r =>
    if rowKey e = rowKey r then { e with qty := e.qty + r.qty } :: es
    else e :: addRow es r

/-- The accumulation loop of `stockBalances`: rows whose item and description
are both empty are skipped (`if (!name) continue`). -/
def collectBalances (rows : List StockRow) : List StockRow :=
  rows.foldl (fun acc r => if rowName r = "" then acc else addRow acc r) []

/-- The sort comparator `(a.item || a.description).localeCompare(b.item ||
b.description)` of NewRequest.tsx line 141, as a non-strict comparison. -/
def nameLe (a b : StockRow) : Bool :=
  strLeB (rowName a).data (rowName b).data

/-- Function `stockBalances` (NewRequest.tsx lines 128-142): group, then sort by
display name with the stable `Array.prototype.sort`, modelled by a stable
insertion sort (a stable sort's output is fixed by the comparator). -/
def stockBalances (rows : List StockRow) : List StockRow :=
  List.insertionSort (fun a b => nameLe a b = true) (collectBalances rows)

/-- The signed total of the group of key `k`: the sum of the quantities of
all rows with a non-empty display name and that key. -/
def keyTotal (rows : List StockRow) (k : String) : Int :=
  ((rows.filter fun r => !(rowName r == "") && (rowKey r == k)).map StockRow.qty).sum

/-! ### Stock mutations (server/index.js lines 325-357 and
supabase/functions/stock-api/index.ts lines 117-147) -/

/-- An input row of a stock mutation request body. `Number(row.qty) || 0`
coercion of well-formed numeric input is the identity, so the quantity is
carried as an `Int` directly. -/
structure StockInput where
  date : String
  item : String
  description : String
  qty : Int
  unit : String
deriving DecidableEq, Repr

/-- The quantity `-Math.abs(Number(row.qty) || 0)` stored by a deduct. -/
def deductQty (q : Int) : Int := -(Int.natAbs q : Int)

/-- The ledger row inserted per input item by POST /api/stock/deduct
(server/index.js line 350); the category column keeps its schema default. -/
def serverDeductRow (i : StockInput) : StockRow :=
  { item := i.item, description := i.description, qty := deductQty i.qty
  , unit := i.unit, category := "" }

/-- The full stock table after a local-backend deduct call: one row inserted
per input item, earlier rows retained (the ledger is append-only). -/
def serverDeductLedger (ledger : List StockRow) (items : List StockInput) : List StockRow :=
  ledger ++ items.map serverDeductRow

/-- The deduction row built by the edge function deduct branch
(stock-api/index.ts lines 118-125): descriptive fields trimmed, same
`-Math.abs` quantity. -/
def edgeDeductRow (i : StockInput) : StockRow :=
  { item := jsTrim i.item, description := jsTrim i.description, qty := deductQty i.qty
  , unit := jsTrim i.unit, category := "" }

/-- The update `const next = [...deductions, ...stock]` (stock-api/index.ts line 126). -/
def edgeDeduct (stock : List StockRow) (items : List StockInput) : List StockRow :=
  items.map edgeDeductRow ++ stock

/-! ### Request, item and approval tables of the self-hosted backend
(server/db.js schema; only the columns the checked handlers touch). -/

structure ReqRow where
  id : String
  request_number : String
  project_id : String
  request_type : String
  priority : String
  required_date : Option String
  remarks : String
  requester_id : String
  status : String
deriving DecidableEq, Repr

structure ApprovalRow where
  id : String
  request_id : String
  user_id : String
  action : String
  comment : Option String
deriving DecidableEq, Repr

structure ItemRow where
  id : String
  request_id : String
  category : String
  name : String
  specification : Option String
  quantity : Int
  unit : String
  preferred_brand : Option String
deriving DecidableEq, Repr

/-- The database state the checked handlers read and write. `users` and
`projects` are kept as id lists: the schema's foreign keys
(`project_id ... REFERENCES projects(id)`, `requester_id ... REFERENCES
users(id)`, with `PRAGMA foreign_keys = ON`) only need membership. -/
structure Db where
  users : List String
  projects : List String
  requests : List ReqRow
  items : List ItemRow
  approvals : List ApprovalRow
deriving DecidableEq, Repr

/-- POST /api/approvals (server/index.js lines 304-316). The handler reads
no request row and checks no status: it unconditionally inserts the approval
row, then updates every request matching `request_id` to
`action === 'approved' ? 'approved' : 'pm_rejected'`, with
`request_type = COALESCE(?, request_type)`. -/
def postApproval (db : Db) (approvalId uid rid action : String)
    (comment : Option String) (request_type : Option String) : Db :=
  { db with
    approvals := db.approvals ++ [⟨approvalId, rid, uid, action, comment⟩]
    requests := db.requests.map fun r =>
      if r.id = rid then
        { r with
          status := if action = "approved" then "approved" else "pm_rejected"
          request_type := request_type.getD r.request_type }
      else r }

/-- DELETE /api/requests/:id (server/index.js lines 271-280): 404 when the
request does not exist, 403 when the caller is neither admin nor the
requester (no rows touched). Otherwise two autocommitted statements run: the
child item rows are deleted first, then the request row. The schema
(server/db.js) declares `approvals.request_id REFERENCES
material_requests(id)` with NO `ON DELETE CASCADE` while `PRAGMA
foreign_keys = ON`, so the second statement throws a FOREIGN KEY error
whenever an approval row still references the request — the uncaught
exception becomes Express's default 500 response, with the items delete
already committed and the request and approval rows left in place. The
handler performs no status check. -/
def deleteRequest (db : Db) (callerId callerRole rid : String) : Db × Nat :=
  match db.requests.find? (fun r => r.id == rid) with
  | none => (db, 404)
  | some r =>
    if callerRole ≠ "admin" ∧ r.requester_id ≠ callerId then (db, 403)
    else
      let db1 := { db with items := db.items.filter fun it => !(it.request_id == rid) }
      if db.approvals.any (fun a => a.request_id == rid) then (db1, 500)
      else ({ db1 with requests := db.requests.filter fun q => !(q.id == rid) }, 200)

/-! ### Request creation (server/index.js lines 232-250) -/

/-- An item of the POST /api/requests body. The JSON fields may be absent
(`undefined` binds as SQL NULL), hence `Option`; an insert succeeds exactly
when the schema's NOT NULL columns (category, name, quantity, unit) are
present. -/
structure ItemPayload where
  category : Option String
  name : Option String
  specification : Option String
  quantity : Option Int
  unit : Option String
  preferred_brand : Option String
deriving DecidableEq, Repr

def itemInsertOk (i : ItemPayload) : Bool :=
  i.category.isSome && i.name.isSome && i.quantity.isSome && i.unit.isSome

structure CreatePayload where
  project_id : String
  priority : String
  required_date : Option String
  remarks : String
  items : List ItemPayload
  status : String
deriving DecidableEq, Repr

/-- The `for (const item of items)` insert loop. better-sqlite3 runs each
`stmt.run` as its own autocommitted statement (the handler, unlike the two
stock endpoints, wraps the loop in no `db.transaction`), so when an insert
fails the error aborts the loop but every earlier insert stays committed.
Fresh item ids are derived from the running table length. -/
def insertItemsLoop (rid : String) : List ItemPayload → Db → Db × Bool
  | [], db => (db, true)
  | i :: rest, db =>
    if itemInsertOk i then
      insertItemsLoop rid rest
        { db with
          items := db.items ++
            [⟨"item-" ++ toString db.items.length, rid, i.category.getD "",
              i.name.getD "", i.specification, i.quantity.getD 0,
              i.unit.getD "", i.preferred_brand⟩] }
    else (db, false)

/-- POST /api/requests: the parent row is inserted first (this single insert
fails only on a foreign-key violation, i.e. an unknown project or caller),
then the items are inserted one by one. The Bool is overall success; on
failure the state still carries everything committed before the error. JS
`||` defaults are the emptiness tests, `Date.now()`-derived request numbers
are passed in as `reqNum`. -/
def createRequest (db : Db) (callerId newRid reqNum : String) (p : CreatePayload) :
    Db × Bool :=
  if p.project_id ∈ db.projects ∧ callerId ∈ db.users then
    insertItemsLoop newRid p.items
      { db with
        requests := db.requests ++
          [⟨newRid, reqNum, p.project_id, "stock_request",
            (if p.priority = "" then "normal" else p.priority),
            p.required_date, p.remarks, callerId,
            (if p.status = "" then "draft" else p.status)⟩] }
  else (db, false)

/-! ### Dashboard metrics (server/index.js lines 361-379, and the cloud
branch of useDashboardMetrics, useDatabase.tsx lines 320-332) -/

structure ReqSummary where
  status : String
  priority : String
deriving DecidableEq, Repr

structure Metric where
  label : String
  value : Nat
  trend : String
  change : Option Int
deriving DecidableEq, Repr

/-- GET /api/dashboard/metrics of the self-hosted backend. -/
def serverMetrics (rs : List ReqSummary) : List Metric :=
  [ ⟨"Total Requests", rs.length, "up", some 0⟩
  , ⟨"Pending Approval", (rs.filter fun r => r.status == "submitted").length, "neutral", none⟩
  , ⟨"Approved", (rs.filter fun r => r.status == "approved").length, "up", some 0⟩
  , ⟨"Urgent", (rs.filter fun r => r.priority == "urgent").length, "down", some 0⟩ ]

/-- The cloud branch of useDashboardMetrics. Note its Approved metric
filters `status === 'pm_approved'`. -/
def cloudMetrics (rs : List ReqSummary) : List Metric :=
  [ ⟨"Total Requests", rs.length, "up", some 12⟩
  , ⟨"Pending Approval", (rs.filter fun r => r.status == "submitted").length, "neutral", none⟩
  , ⟨"Approved", (rs.filter fun r => r.status == "pm_approved").length, "up", some 8⟩
  , ⟨"Urgent", (rs.filter fun r => r.priority == "urgent").length, "down", some (-3)⟩ ]

/-- The status check constraint of the managed backend
(supabase/migrations/20260105125434 line 4). -/
def allowedStatuses : List String :=
  ["draft", "submitted", "approved", "rejected", "closed"]

/-! ### Client-side request form (NewRequest.tsx lines 207-265) -/

/-- A row of the Added Items table. The quantity text field goes through
`parseFloat`; numeric parsing is orthogonal to every checked claim, so the
value is carried as the parsed number directly. -/
structure FormItem where
  category : String
  name : String
  specification : String
  quantity : Int
  unit : String
  preferredBrand : String
deriving DecidableEq, Repr

structure FormState where
  projectId : String
  priority : String
  requiredDate : String
  remarks : String
deriving DecidableEq, Repr

/-- Function `validateForm` (lines 207-219): a project must be selected and at least
one item added. -/
def validateForm (f : FormState) (items : List FormItem) : Bool :=
  if f.projectId = "" then false
  else if items.length = 0 then false
  else true

def allowedUnits : List String := ["nos", "bags", "kg", "ton", "m3"]

/-- The normalization `item.unit.toLowerCase().trim()` (line 228). -/
def normalizeUnit (u : String) : String := jsTrim (jsToLowerCase u)

/-- One element of the `validItems` mapping (lines 227-237). -/
def validItem (it : FormItem) : ItemPayload :=
  { category := some it.category
  , name := some it.name
  , specification := if it.specification = "" then none else some it.specification
  , quantity := some it.quantity
  , unit := some (if allowedUnits.contains (normalizeUnit it.unit) then normalizeUnit it.unit else "nos")
  , preferred_brand := if it.preferredBrand = "" then none else some it.preferredBrand }

/-- Function `handleSubmit(asDraft)` (lines 221-247) up to the backend call: `none`
when validation aborts before any call, otherwise the payload passed to the
create mutation. -/
def handleSubmit (asDraft : Bool) (f : FormState) (items : List FormItem) :
    Option CreatePayload :=
  if !asDraft && !(validateForm f items) then none
  else some
    { project_id := f.projectId
    , priority := f.priority
    , required_date := if f.requiredDate = "" then none else some f.requiredDate
    , remarks := f.remarks
    , items := items.map validItem
    , status := if asDraft then "draft" else "submitted" }

/-! ### Concrete fixtures used by witnesses and counterexamples -/

/-- A request still in `draft`. -/
def draftReq : ReqRow :=
  ⟨"r1", "REQ-1", "p1", "stock_request", "normal", none, "", "u1", "draft"⟩

def draftDb : Db := ⟨["u1"], ["p1"], [draftReq], [], []⟩

/-- A request in `submitted`. -/
def submittedReq : ReqRow :=
  ⟨"r2", "REQ-2", "p1", "stock_request", "normal", none, "", "u1", "submitted"⟩

def submittedDb : Db := ⟨["u1"], ["p1"], [submittedReq], [], []⟩

/-- An already approved request owned by `u1`, with one child item row. -/
def apprReq : ReqRow :=
  ⟨"r3", "REQ-3", "p1", "stock_request", "normal", none, "", "u1", "approved"⟩

def apprDb : Db :=
  ⟨["u1", "u2"], ["p1"], [apprReq],
   [⟨"i1", "r3", "cement", "Cement", none, 5, "bags", none⟩], []⟩

/-- The same state with the approval row that approving `r3` leaves behind,
still referencing the request. -/
def apprDb2 : Db :=
  ⟨["u1", "u2"], ["p1"], [apprReq],
   [⟨"i1", "r3", "cement", "Cement", none, 5, "bags", none⟩],
   [⟨"a3", "r3", "u2", "approved", none⟩]⟩

/-- A creation payload whose second item misses the NOT NULL columns
`name` and `quantity`, so its insert fails mid-loop. -/
def badItemsPayload : CreatePayload :=
  ⟨"p1", "normal", none, "",
   [⟨some "cement", some "Cement", none, some 10, some "bags", none⟩,
    ⟨some "steel", none, none, none, some "kg", none⟩], "submitted"⟩

def emptyDb : Db := ⟨["u1"], ["p1"], [], [], []⟩

/-- The request list of the dashboard example scenario. -/
def metricsExample : List ReqSummary :=
  [⟨"submitted", "normal"⟩, ⟨"approved", "normal"⟩, ⟨"submitted", "urgent"⟩]

/-- A receipt of 100 bags of Cement followed by an issuance of 30. -/
def demoLedger : List StockRow :=
  [⟨"Cement", "", 100, "bags", ""⟩, ⟨"Cement", "", -30, "bags", ""⟩]

/-- Two ledger rows naming Cement in different unit spellings, one of them a
negative movement. -/
def cexLedger : List StockRow :=
  [⟨"Cement", "", -30, "Bags", ""⟩, ⟨"Cement", "", 100, "bags", ""⟩]

/-- Two rows of one group whose display name comes once from `item` and once
from `description`. -/
def permLedgerA : List StockRow :=
  [⟨"", "Cement", 1, "bags", ""⟩, ⟨"Cement", "", 2, "bags", ""⟩]

def permLedgerB : List StockRow :=
  [⟨"Cement", "", 2, "bags", ""⟩, ⟨"", "Cement", 1, "bags", ""⟩]

/-! ## Supporting lemmas -/

theorem strLeB_total : ∀ as bs, strLeB as bs || strLeB bs as := by
  intro as
  induction as with
  | nil => intro bs; simp [strLeB]
  | cons a as ih =>
    intro bs
    cases bs with
    | nil => simp [strLeB]
    | cons b bs =>
      by_cases h1 : a < b
      · simp [strLeB, h1]
      · by_cases h2 : b < a
        · simp [strLeB, h1, h2]
        · simpa [strLeB, h1, h2] using ih bs

theorem strLeB_trans :
    ∀ as bs cs, strLeB as bs = true → strLeB bs cs = true → strLeB as cs = true := by
  intro as
  induction as with
  | nil => intro bs cs _ _; simp [strLeB]
  | cons a as ih =>
    intro bs cs h1 h2
    cases bs with
    | nil => simp [strLeB] at h1
    | cons b bs =>
      cases cs with
      | nil => simp [strLeB] at h2
      | cons c cs =>
        rcases lt_trichotomy a b with hab | rfl | hba
        · rcases lt_trichotomy b c with hbc | rfl | hcb
          · simp [strLeB, lt_trans hab hbc]
          · simp [strLeB, hab]
          · rw [strLeB, if_neg (lt_asymm hcb), if_pos hcb] at h2
            exact Bool.noConfusion h2
        · rcases lt_trichotomy a c with hac | rfl | hca
          · simp [strLeB, hac]
          · rw [strLeB, if_neg (lt_irrefl a), if_neg (lt_irrefl a)] at h1 h2 ⊢
            exact ih _ _ h1 h2
          · rw [strLeB, if_neg (lt_asymm hca), if_pos hca] at h2
            exact Bool.noConfusion h2
        · rw [strLeB, if_neg (lt_asymm hba), if_pos hba] at h1
          exact Bool.noConfusion h1

theorem rowName_qtyUpdate (e : StockRow) (x : Int) :
    rowName { e with qty := x } = rowName e := rfl

theorem rowKey_qtyUpdate (e : StockRow) (x : Int) :
    rowKey { e with qty := x } = rowKey e := rfl

/-- The keys after an `addRow` step: unchanged when the row's key was
already present, else the new key is appended. -/
theorem addRow_keys (acc : List StockRow) (r : StockRow) :
    (addRow acc r).map rowKey =
      if rowKey r ∈ acc.map rowKey then acc.map rowKey
      else acc.map rowKey ++ [rowKey r] := by
  induction acc with
  | nil => simp [addRow]
  | cons e es ih =>
    by_cases h : rowKey e = rowKey r
    · simp [addRow, h, rowKey_qtyUpdate]
    · have h2 : ¬(rowKey r = rowKey e) := fun hh => h hh.symm
      by_cases hm : rowKey r ∈ es.map rowKey
      · simp [addRow, h, ih, hm, h2]
      · simp [addRow, h, ih, hm, h2]

/-- Case analysis for an entry of `addRow acc r`, assuming the accumulator
has duplicate-free keys. -/
theorem addRow_mem_spec (acc : List StockRow) (r : StockRow)
    (hnd : (acc.map rowKey).Nodup) :
    ∀ e2 ∈ addRow acc r,
      (e2 ∈ acc ∧ rowKey e2 ≠ rowKey r) ∨
      (∃ e ∈ acc, rowKey e = rowKey r ∧ e2 = { e with qty := e.qty + r.qty }) ∨
      (rowKey r ∉ acc.map rowKey ∧ e2 = r) := by
  induction acc with
  | nil =>
    intro e2 h2
    simp only [addRow, List.mem_singleton] at h2
    subst h2
    exact Or.inr (Or.inr ⟨by simp, rfl⟩)
  | cons e es ih =>
    intro e2 h2
    by_cases h : rowKey e = rowKey r
    · rw [addRow, if_pos h] at h2
      rcases List.mem_cons.mp h2 with h2 | h2
      · subst h2
        exact Or.inr (Or.inl ⟨e, List.mem_cons_self e es, h, rfl⟩)
      · have hne : rowKey e2 ≠ rowKey r := by
          intro hk
          have hmem : rowKey e2 ∈ es.map rowKey := List.mem_map_of_mem rowKey h2
          have hout : rowKey e ∉ es.map rowKey := (List.nodup_cons.mp (by simpa using hnd)).1
          rw [hk, ← h] at hmem
          exact hout hmem
        exact Or.inl ⟨List.mem_cons_of_mem e h2, hne⟩
    · rw [addRow, if_neg h] at h2
      rcases List.mem_cons.mp h2 with h2 | h2
      · subst h2
        exact Or.inl ⟨List.mem_cons_self e2 es, h⟩
      · have hnd2 : (es.map rowKey).Nodup := (List.nodup_cons.mp (by simpa using hnd)).2
        rcases ih hnd2 e2 h2 with h3 | h3 | h3
        · exact Or.inl ⟨List.mem_cons_of_mem e h3.1, h3.2⟩
        · obtain ⟨e0, he0, hk0, heq0⟩ := h3
          exact Or.inr (Or.inl ⟨e0, List.mem_cons_of_mem e he0, hk0, heq0⟩)
        · refine Or.inr (Or.inr ⟨?_, h3.2⟩)
          simp only [List.map_cons, List.mem_cons]
          rintro (hk | hk)
          · exact h hk.symm
          · exact h3.1 hk

theorem keyTotal_append (l1 l2 : List StockRow) (k : String) :
    keyTotal (l1 ++ l2) k = keyTotal l1 k + keyTotal l2 k := by
  simp [keyTotal, List.filter_append]

theorem keyTotal_single (r : StockRow) (k : String) :
    keyTotal [r] k = if rowName r ≠ "" ∧ rowKey r = k then r.qty else 0 := by
  by_cases h1 : rowName r = "" <;> by_cases h2 : rowKey r = k <;>
    simp [keyTotal, List.filter_singleton, h1, h2]

theorem keyTotal_eq_zero (rows : List StockRow) (k : String)
    (h : ∀ r ∈ rows, ¬(rowName r ≠ "" ∧ rowKey r = k)) : keyTotal rows k = 0 := by
  have hf : rows.filter (fun r => !(rowName r == "") && (rowKey r == k)) = [] := by
    rw [List.filter_eq_nil_iff]
    intro r hr
    have := h r hr
    simp only [ne_eq, not_and, not_not] at this
    by_cases h1 : rowName r = ""
    · simp [h1]
    · simp [h1, this h1]
  simp [keyTotal, hf]

/-- Invariant of the `stockBalances` accumulation loop: duplicate-free keys,
entry quantities equal to the group totals of the processed prefix, and keys
exactly those of the already processed named rows. -/
theorem collect_invariant :
    ∀ (rows acc processed : List StockRow),
      (acc.map rowKey).Nodup →
      (∀ e ∈ acc, e.qty = keyTotal processed (rowKey e)) →
      (∀ k, k ∈ acc.map rowKey ↔ ∃ r ∈ processed, rowName r ≠ "" ∧ rowKey r = k) →
      (((rows.foldl (fun acc r => if rowName r = "" then acc else addRow acc r) acc).map
          rowKey).Nodup ∧
       (∀ e ∈ rows.foldl (fun acc r => if rowName r = "" then acc else addRow acc r) acc,
          e.qty = keyTotal (processed ++ rows) (rowKey e)) ∧
       (∀ k, k ∈ (rows.foldl (fun acc r => if rowName r = "" then acc else addRow acc r)
            acc).map rowKey ↔
          ∃ r ∈ processed ++ rows, rowName r ≠ "" ∧ rowKey r = k)) := by
  intro rows
  induction rows with
  | nil =>
    intro acc processed h1 h2 h3
    exact ⟨h1, by simpa using h2, by simpa using h3⟩
  | cons r rs ih =>
    intro acc processed h1 h2 h3
    by_cases hname : rowName r = ""
    · have step : (r :: rs).foldl
          (fun acc r => if rowName r = "" then acc else addRow acc r) acc =
          rs.foldl (fun acc r => if rowName r = "" then acc else addRow acc r) acc := by
        simp [hname]
      rw [step]
      have h2r : ∀ e ∈ acc, e.qty = keyTotal (processed ++ [r]) (rowKey e) := by
        intro e he
        rw [keyTotal_append, keyTotal_single, if_neg (by simp [hname]), add_zero]
        exact h2 e he
      have h3r : ∀ k, k ∈ acc.map rowKey ↔
          ∃ r2 ∈ processed ++ [r], rowName r2 ≠ "" ∧ rowKey r2 = k := by
        intro k
        rw [h3 k]
        constructor
        · rintro ⟨r2, hr2, hp⟩; exact ⟨r2, List.mem_append_left _ hr2, hp⟩
        · rintro ⟨r2, hr2, hp⟩
          rcases List.mem_append.mp hr2 with hr2 | hr2
          · exact ⟨r2, hr2, hp⟩
          · rw [List.mem_singleton.mp hr2] at hp
            exact absurd hname hp.1
      have := ih acc (processed ++ [r]) h1 h2r h3r
      simpa [List.append_assoc] using this
    · have step : (r :: rs).foldl
          (fun acc r => if rowName r = "" then acc else addRow acc r) acc =
          rs.foldl (fun acc r => if rowName r = "" then acc else addRow acc r)
            (addRow acc r) := by
        simp [hname]
      rw [step]
      have h1r : ((addRow acc r).map rowKey).Nodup := by
        rw [addRow_keys]
        by_cases hm : rowKey r ∈ acc.map rowKey
        · simpa [hm] using h1
        · simp only [hm, if_false]
          rw [List.nodup_append]
          exact ⟨h1, List.nodup_singleton _, by simpa using hm⟩
      have h2r : ∀ e ∈ addRow acc r, e.qty = keyTotal (processed ++ [r]) (rowKey e) := by
        intro e2 he2
        rcases addRow_mem_spec acc r h1 e2 he2 with hc | hc | hc
        · rw [keyTotal_append, keyTotal_single,
            if_neg (by rintro ⟨_, hk⟩; exact hc.2 hk.symm), add_zero]
          exact h2 e2 hc.1
        · obtain ⟨e, he, hk, heq⟩ := hc
          subst heq
          rw [rowKey_qtyUpdate, keyTotal_append, keyTotal_single,
            if_pos ⟨hname, hk.symm⟩]
          have hq := h2 e he
          show e.qty + r.qty = keyTotal processed (rowKey e) + r.qty
          omega
        · obtain ⟨hnot, heq⟩ := hc
          subst heq
          have hz : keyTotal processed (rowKey e2) = 0 := by
            apply keyTotal_eq_zero
            intro r2 hr2 hcontra
            exact hnot ((h3 (rowKey e2)).mpr ⟨r2, hr2, hcontra⟩)
          rw [keyTotal_append, keyTotal_single, hz, if_pos ⟨hname, rfl⟩, zero_add]
      have h3r : ∀ k, k ∈ (addRow acc r).map rowKey ↔
          ∃ r2 ∈ processed ++ [r], rowName r2 ≠ "" ∧ rowKey r2 = k := by
        intro k
        rw [addRow_keys]
        by_cases hm : rowKey r ∈ acc.map rowKey
        · simp only [hm, if_true]
          rw [h3 k]
          constructor
          · rintro ⟨r2, hr2, hp⟩; exact ⟨r2, List.mem_append_left _ hr2, hp⟩
          · rintro ⟨r2, hr2, hp⟩
            rcases List.mem_append.mp hr2 with hr2 | hr2
            · exact ⟨r2, hr2, hp⟩
            · rw [List.mem_singleton.mp hr2] at hp
              rw [← hp.2]
              exact (h3 (rowKey r)).mp hm
        · rw [if_neg hm, List.mem_append, List.mem_singleton, h3 k]
          constructor
          · rintro (⟨r2, hr2, hp⟩ | hk)
            · exact ⟨r2, List.mem_append_left _ hr2, hp⟩
            · exact ⟨r, List.mem_append_right _ (List.mem_singleton_self r),
                hname, hk.symm⟩
          · rintro ⟨r2, hr2, hp⟩
            rcases List.mem_append.mp hr2 with hr2 | hr2
            · exact Or.inl ⟨r2, hr2, hp⟩
            · rw [List.mem_singleton.mp hr2] at hp
              exact Or.inr hp.2.symm
      have := ih (addRow acc r) (processed ++ [r]) h1r h2r h3r
      simpa [List.append_assoc] using this

/-- The grouping stage satisfies the three-part characterization over the
whole input. -/
theorem collectBalances_spec (rows : List StockRow) :
    ((collectBalances rows).map rowKey).Nodup ∧
    (∀ e ∈ collectBalances rows, e.qty = keyTotal rows (rowKey e)) ∧
    (∀ k, k ∈ (collectBalances rows).map rowKey ↔
        ∃ r ∈ rows, rowName r ≠ "" ∧ rowKey r = k) := by
  have h := collect_invariant rows [] [] (by simp) (by simp) (by simp)
  simpa [collectBalances] using h

/-- Full characterization of `stockBalances`, shared by the stock claims:
the output has one entry per key of a named input row, each entry carrying
the signed group total, and is sorted by display name. -/
theorem stockBalances_spec (rows : List StockRow) :
    ((stockBalances rows).map rowKey).Nodup ∧
    (∀ e ∈ stockBalances rows, e.qty = keyTotal rows (rowKey e)) ∧
    (∀ k, k ∈ (stockBalances rows).map rowKey ↔
        ∃ r ∈ rows, rowName r ≠ "" ∧ rowKey r = k) ∧
    (stockBalances rows).Pairwise (fun a b => nameLe a b = true) := by
  obtain ⟨h1, h2, h3⟩ := collectBalances_spec rows
  have hperm : (stockBalances rows).Perm (collectBalances rows) :=
    List.perm_insertionSort _ _
  have hkeys : ((stockBalances rows).map rowKey).Perm
      ((collectBalances rows).map rowKey) := hperm.map _
  refine ⟨hkeys.nodup_iff.mpr h1, ?_, ?_, ?_⟩
  · intro e he
    exact h2 e (hperm.subset he)
  · intro k
    rw [hkeys.mem_iff]
    exact h3 k
  · haveI htot : IsTotal StockRow (fun a b => nameLe a b = true) :=
      ⟨fun a b => by
        have := strLeB_total (rowName a).data (rowName b).data
        rcases Bool.or_eq_true_iff.mp this with h | h
        · exact Or.inl h
        · exact Or.inr h⟩
    haveI htr : IsTrans StockRow (fun a b => nameLe a b = true) :=
      ⟨fun a b c h1 h2 => strLeB_trans _ _ _ h1 h2⟩
    exact List.sorted_insertionSort _ _

/-! ## Claim theorems -/

/-- C1 (amended): `stockBalances` groups the ledger rows by the composite key
of display name (item, else description) and the unit taken verbatim — the
unit is NOT case-normalized — returns exactly one entry per group of rows
with a non-empty display name, that entry carrying the group's signed
quantity sum, performs NO exclusion of groups with total ≤ 0, and sorts the
entries by display name. -/
theorem stockBalances_grouping (rows : List StockRow) :
    ((stockBalances rows).map rowKey).Nodup ∧
    (∀ e ∈ stockBalances rows, e.qty = keyTotal rows (rowKey e)) ∧
    (∀ k, k ∈ (stockBalances rows).map rowKey ↔
        ∃ r ∈ rows, rowName r ≠ "" ∧ rowKey r = k) ∧
    (stockBalances rows).Pairwise (fun a b => nameLe a b = true) :=
  stockBalances_spec rows

/-- Witness for C1: in the 100 − 30 Cement ledger, the single entry of key
`Cement__bags` carries the group total. -/
theorem stockBalances_grouping_witness :
    (⟨"Cement", "", 70, "bags", ""⟩ : StockRow).qty =
      keyTotal demoLedger (rowKey ⟨"Cement", "", 70, "bags", ""⟩) :=
  (stockBalances_grouping demoLedger).2.1 _ (by decide)

/-- Counterexample for C1 as stated: the ledger `cexLedger` holds Cement in
units `Bags` and `bags`; the claim predicts one case-merged group of total
70 > 0, but the code returns two entries, one with the non-positive total
−30 (nothing is excluded). -/
theorem stockBalances_claim_cex :
    (stockBalances cexLedger).map (fun e => (e.unit, e.qty)) =
      [("Bags", -30), ("bags", 100)] ∧
    ¬ ((stockBalances cexLedger).length = 1 ∧
        ∀ e ∈ stockBalances cexLedger, 0 < e.qty) := by
  decide

/-- C7 (amended): permuting the ledger preserves every group total and the
set of group keys of the output, and entries with equal keys carry equal
quantities; the full output (its representative descriptive fields and the
relative order of equal display names) is NOT permutation-invariant. -/
theorem stockBalances_perm_invariant (l1 l2 : List StockRow) (hp : l1.Perm l2) :
    (∀ k, keyTotal l1 k = keyTotal l2 k) ∧
    ((stockBalances l1).map rowKey).Perm ((stockBalances l2).map rowKey) ∧
    (∀ e1 ∈ stockBalances l1, ∀ e2 ∈ stockBalances l2,
        rowKey e1 = rowKey e2 → e1.qty = e2.qty) := by
  have hk : ∀ k, keyTotal l1 k = keyTotal l2 k := by
    intro k
    exact List.Perm.sum_eq ((hp.filter _).map _)
  obtain ⟨h1n, h1q, h1k, _⟩ := stockBalances_spec l1
  obtain ⟨h2n, h2q, h2k, _⟩ := stockBalances_spec l2
  refine ⟨hk, ?_, ?_⟩
  · rw [List.perm_ext_iff_of_nodup h1n h2n]
    intro k
    rw [h1k k, h2k k]
    constructor
    · rintro ⟨r, hr, hp2⟩; exact ⟨r, hp.subset hr, hp2⟩
    · rintro ⟨r, hr, hp2⟩; exact ⟨r, hp.symm.subset hr, hp2⟩
  · intro e1 he1 e2 he2 hkk
    rw [h1q e1 he1, h2q e2 he2, hkk, hk (rowKey e2)]

/-- Witness for C7: the two orderings of the Cement rows give the same group
total. -/
theorem stockBalances_perm_invariant_witness :
    keyTotal permLedgerA "Cement__bags" = keyTotal permLedgerB "Cement__bags" :=
  (stockBalances_perm_invariant permLedgerA permLedgerB (by decide)).1 "Cement__bags"

/-- Counterexample for C7 as stated: the two permuted ledgers produce
different aggregator outputs (the surviving representative of the merged
group differs). -/
theorem stockBalances_order_cex :
    permLedgerA.Perm permLedgerB ∧
    stockBalances permLedgerA ≠ stockBalances permLedgerB := by
  decide

/-- C2: on both backends a Deduct call adds exactly one ledger row per input
item, with quantity `-Math.abs(qty)` which is never positive; inputs of
quantity 5 and −5 both store −5. -/
theorem deduct_nonpositive :
    (∀ (ledger : List StockRow) (items : List StockInput),
        (serverDeductLedger ledger items).length = ledger.length + items.length) ∧
    (∀ (stock : List StockRow) (items : List StockInput),
        (edgeDeduct stock items).length = stock.length + items.length) ∧
    (∀ i : StockInput,
        (serverDeductRow i).qty ≤ 0 ∧ (edgeDeductRow i).qty ≤ 0 ∧
        (serverDeductRow i).qty = deductQty i.qty ∧
        (edgeDeductRow i).qty = deductQty i.qty) ∧
    (∀ q : Int, deductQty q ≤ 0) ∧
    deductQty 5 = -5 ∧ deductQty (-5) = -5 := by
  have hq : ∀ q : Int, deductQty q ≤ 0 := by
    intro q
    show -(Int.natAbs q : Int) ≤ 0
    omega
  refine ⟨?_, ?_, ?_, hq, by decide, by decide⟩
  · intro ledger items; simp [serverDeductLedger]
  · intro stock items; simp [edgeDeduct, Nat.add_comm]
  · intro i
    exact ⟨hq i.qty, hq i.qty, rfl, rfl⟩

/-- C3 (amended): the approvals endpoint performs no status check at all:
for every database state — whatever the target request's current status —
an `approved` call appends exactly one Approval row with action `approved`
and sets the status of every request with the given id to `approved`; no
request is removed or added. The submitted-only gating the claim states is
absent from the code. -/
theorem postApproval_ungated (db : Db) (aid uid rid : String)
    (c t : Option String) :
    (postApproval db aid uid rid "approved" c t).approvals =
      db.approvals ++ [⟨aid, rid, uid, "approved", c⟩] ∧
    (∀ r ∈ (postApproval db aid uid rid "approved" c t).requests,
        r.id = rid → r.status = "approved") ∧
    (postApproval db aid uid rid "approved" c t).requests.map ReqRow.id =
      db.requests.map ReqRow.id := by
  refine ⟨rfl, ?_, ?_⟩
  · intro r hr hid
    simp only [postApproval, List.mem_map] at hr
    obtain ⟨r0, hr0, rfl⟩ := hr
    by_cases h : r0.id = rid
    · simp [h]
    · simp only [if_neg h] at hid ⊢
      exact absurd hid h
  · show (db.requests.map _).map ReqRow.id = db.requests.map ReqRow.id
    rw [List.map_map]
    apply List.map_congr_left
    intro r _
    by_cases h : r.id = rid <;> simp [h]

/-- Witness for C3: applying the ungated approve to the draft request
mutates it to `approved` and stores one approval row. -/
theorem postApproval_ungated_witness :
    (postApproval draftDb "a1" "admin" "r1" "approved" none none).approvals =
      [⟨"a1", "r1", "admin", "approved", none⟩] ∧
    ({ draftReq with status := "approved" } : ReqRow).status = "approved" := by
  have h := postApproval_ungated draftDb "a1" "admin" "r1" none none
  exact ⟨by simpa [draftDb] using h.1, h.2.1 _ (by decide) (by decide)⟩

/-- Counterexample for C3 as stated: approving a request in `draft` is NOT
rejected — an approval row is written and the status is mutated. -/
theorem approve_draft_cex :
    (postApproval draftDb "a1" "admin" "r1" "approved" none none).approvals ≠
      draftDb.approvals ∧
    (postApproval draftDb "a1" "admin" "r1" "approved" none none).requests.map
        ReqRow.status ≠ draftDb.requests.map ReqRow.status ∧
    draftDb.requests.map ReqRow.status = ["draft"] := by
  decide

/-- C4: request creation is NOT atomic. On the payload whose second item
violates the NOT NULL schema columns, the call fails, yet the parent request
row and the first item row stay persisted (the handler, unlike the stock
endpoints, wraps its inserts in no transaction). -/
theorem createRequest_partial_persist :
    (createRequest emptyDb "u1" "r1" "REQ-1" badItemsPayload).2 = false ∧
    (createRequest emptyDb "u1" "r1" "REQ-1" badItemsPayload).1.requests.map
        ReqRow.id = ["r1"] ∧
    (createRequest emptyDb "u1" "r1" "REQ-1" badItemsPayload).1.items.map
        ItemRow.name = ["Cement"] := by
  decide

/-- C5: submitting (`asDraft = false`) with an empty item list always fails
`validateForm`, so no backend call is made; saving as draft with the same
empty list always reaches the backend with status `draft`, and (when the
selected project and the caller exist) the local backend persists a request
whose status is `draft`. -/
theorem emptyItems_draft_vs_submit :
    (∀ f : FormState, handleSubmit false f [] = none) ∧
    (∀ f : FormState, ∃ p : CreatePayload,
        handleSubmit true f [] = some p ∧ p.status = "draft" ∧ p.items = [] ∧
        ∀ (db : Db) (caller rid num : String),
          f.projectId ∈ db.projects → caller ∈ db.users →
          (createRequest db caller rid num p).2 = true ∧
          (createRequest db caller rid num p).1.requests.map ReqRow.status =
            db.requests.map ReqRow.status ++ ["draft"]) := by
  constructor
  · intro f
    by_cases h : f.projectId = "" <;> simp [handleSubmit, validateForm, h]
  · intro f
    refine ⟨_, rfl, rfl, rfl, ?_⟩
    intro db caller rid num hp hc
    rw [createRequest, if_pos ⟨hp, hc⟩]
    constructor
    · rfl
    · simp [insertItemsLoop]

/-- Witness for C5: one concrete form over the one-project one-user
database. -/
theorem emptyItems_draft_vs_submit_witness :
    handleSubmit false ⟨"p1", "normal", "", ""⟩ [] = none ∧
    (createRequest emptyDb "u1" "r1" "REQ-1"
        ⟨"p1", "normal", none, "", [], "draft"⟩).2 = true ∧
    (createRequest emptyDb "u1" "r1" "REQ-1"
        ⟨"p1", "normal", none, "", [], "draft"⟩).1.requests.map ReqRow.status =
      ["draft"] := by
  obtain ⟨p, hp1, _, _, h⟩ := emptyItems_draft_vs_submit.2 ⟨"p1", "normal", "", ""⟩
  have hp : p = ⟨"p1", "normal", none, "", [], "draft"⟩ := by
    have : some p = some (⟨"p1", "normal", none, "", [], "draft"⟩ : CreatePayload) := by
      rw [← hp1]; rfl
    exact Option.some_inj.mp this
  rw [hp] at h
  have h2 := h emptyDb "u1" "r1" "REQ-1" (by decide) (by decide)
  exact ⟨emptyItems_draft_vs_submit.1 ⟨"p1", "normal", "", ""⟩, h2.1,
    by simpa [emptyDb] using h2.2⟩

/-- C6: a Reject call on a submitted request writes the Approval row with
action `rejected` but transitions the request to `pm_rejected`, not to the
claimed `rejected`; `pm_rejected` is not even among the statuses the managed
backend's check constraint admits. -/
theorem reject_sets_pm_rejected :
    (postApproval submittedDb "a2" "admin" "r2" "rejected" (some "no") none).approvals.map
        ApprovalRow.action = ["rejected"] ∧
    (postApproval submittedDb "a2" "admin" "r2" "rejected" (some "no") none).requests.map
        ReqRow.status = ["pm_rejected"] ∧
    "pm_rejected" ≠ "rejected" ∧ "pm_rejected" ∉ allowedStatuses := by
  decide

/-- C8 (amended): on the self-hosted backend, deletion of an existing
request is authorized exactly when the caller is admin or is the requester —
with NO status condition; a caller who is neither gets a 403 and the state
is untouched. An authorized delete first removes all child item rows; the
request row itself is then deleted and 200 returned only when no approval
row references the request — otherwise the missing `ON DELETE CASCADE` on
`approvals.request_id` (with `PRAGMA foreign_keys = ON`) makes the second
statement throw, so the call errors with the request and approval rows kept
and the item rows already gone. (The status ∈ {draft, submitted} restriction
of the claim exists only in the managed backend's row-level-security
policy.) -/
theorem deleteRequest_spec (db : Db) (callerId callerRole rid : String) (r : ReqRow)
    (hfind : db.requests.find? (fun q => q.id == rid) = some r) :
    (callerRole ≠ "admin" → r.requester_id ≠ callerId →
        deleteRequest db callerId callerRole rid = (db, 403)) ∧
    ((callerRole = "admin" ∨ r.requester_id = callerId) →
      ((∀ a ∈ db.approvals, a.request_id ≠ rid) →
          deleteRequest db callerId callerRole rid =
            ({ db with
                items := db.items.filter fun it => !(it.request_id == rid)
                requests := db.requests.filter fun q => !(q.id == rid) }, 200)) ∧
      (∀ a ∈ db.approvals, a.request_id = rid →
          deleteRequest db callerId callerRole rid =
            ({ db with
                items := db.items.filter fun it => !(it.request_id == rid) }, 500))) := by
  unfold deleteRequest
  rw [hfind]
  dsimp only
  constructor
  · intro h1 h2
    rw [if_pos ⟨h1, h2⟩]
  · intro h
    have hno : ¬(callerRole ≠ "admin" ∧ r.requester_id ≠ callerId) := by
      rcases h with h | h
      · exact fun hc => hc.1 h
      · exact fun hc => hc.2 h
    rw [if_neg hno]
    constructor
    · intro hnone
      have hany : db.approvals.any (fun a => a.request_id == rid) = false := by
        rw [List.any_eq_false]
        intro a ha
        simpa using hnone a ha
      simp [hany]
    · intro a ha hid
      have hany : db.approvals.any (fun a => a.request_id == rid) = true :=
        List.any_eq_true.mpr ⟨a, ha, by simpa using hid⟩
      simp [hany]

/-- Witness for C8: the owner deletes their own already-approved request —
with no referencing approval row everything is removed and 200 returned;
with the approval row present the call fails having already deleted the
items; a stranger gets 403 with nothing touched. -/
theorem deleteRequest_spec_witness :
    (deleteRequest apprDb "u1" "user" "r3").2 = 200 ∧
    deleteRequest apprDb2 "u1" "user" "r3" = ({ apprDb2 with items := [] }, 500) ∧
    deleteRequest apprDb "u2" "user" "r3" = (apprDb, 403) := by
  have h1 := deleteRequest_spec apprDb "u1" "user" "r3" apprReq (by decide)
  have h2 := deleteRequest_spec apprDb2 "u1" "user" "r3" apprReq (by decide)
  have h3 := deleteRequest_spec apprDb "u2" "user" "r3" apprReq (by decide)
  refine ⟨?_, ?_, h3.1 (by decide) (by decide)⟩
  · rw [(h1.2 (Or.inr (by decide))).1 (by decide)]
  · rw [(h2.2 (Or.inr (by decide))).2 ⟨"a3", "r3", "u2", "approved", none⟩
      (by decide) (by decide)]
    decide

/-- Counterexample for C8 as stated: the requester deletes their own request
in status `approved` (a state with no approval rows, reachable through the
PATCH endpoint) — the claim says only {draft, submitted} are
owner-deletable, but the local endpoint deletes it (and its items). -/
theorem deleteRequest_claim_cex :
    apprDb.requests.map ReqRow.status = ["approved"] ∧
    apprReq.requester_id = "u1" ∧
    (deleteRequest apprDb "u1" "user" "r3").2 = 200 ∧
    (deleteRequest apprDb "u1" "user" "r3").1.requests = [] ∧
    (deleteRequest apprDb "u1" "user" "r3").1.items = [] := by
  decide

/-- C9: over the example request collection both backends emit the four
fixed labels, and Total/Pending/Urgent agree with the claim (3, 2, 1); but
the cloud variant counts `pm_approved` — a status the managed schema's check
constraint does not even admit — so its Approved metric is 0 where the claim
and the self-hosted backend give 1. -/
theorem dashboard_metrics_divergence :
    (serverMetrics metricsExample).map Metric.label =
      ["Total Requests", "Pending Approval", "Approved", "Urgent"] ∧
    (serverMetrics metricsExample).map Metric.value = [3, 2, 1, 1] ∧
    (cloudMetrics metricsExample).map Metric.label =
      ["Total Requests", "Pending Approval", "Approved", "Urgent"] ∧
    (cloudMetrics metricsExample).map Metric.value = [3, 2, 0, 1] ∧
    "pm_approved" ∉ allowedStatuses := by
  decide

/-- C10: every unit a created item carries is first lower-cased and trimmed;
when the normalized unit is outside the fixed set {nos, bags, kg, ton, m3}
it is silently coerced to `nos`, otherwise the normalized unit is kept — so
the stored unit is always a member of the fixed set. -/
theorem validItem_unit_normalization :
    (∀ it : FormItem, (validItem it).unit =
        some (if allowedUnits.contains (normalizeUnit it.unit) then normalizeUnit it.unit
              else "nos")) ∧
    (∀ it : FormItem, ∀ u, (validItem it).unit = some u → u ∈ allowedUnits) ∧
    (validItem ⟨"c", "n", "", 1, " KG ", ""⟩).unit = some "kg" ∧
    (validItem ⟨"c", "n", "", 1, "Boxes", ""⟩).unit = some "nos" ∧
    (validItem ⟨"c", "n", "", 1, "ton", ""⟩).unit = some "ton" := by
  refine ⟨fun it => rfl, ?_, by decide, by decide, by decide⟩
  intro it u hu
  simp only [validItem, Option.some.injEq] at hu
  subst hu
  by_cases h : allowedUnits.contains (normalizeUnit it.unit)
  · rw [if_pos h]
    exact List.mem_of_elem_eq_true h
  · rw [if_neg h]
    decide

/-- Witness for C10: the coercion cases exercised through the theorem at
concrete units. -/
theorem validItem_unit_normalization_witness :
    (" KG " ∈ (["nos"] : List String) ∨ "kg" ∈ allowedUnits) ∧
    "nos" ∈ allowedUnits := by
  constructor
  · exact Or.inr (validItem_unit_normalization.2.1 ⟨"c", "n", "", 1, " KG ", ""⟩ "kg"
      (by decide))
  · exact validItem_unit_normalization.2.1 ⟨"c", "n", "", 1, "Boxes", ""⟩ "nos" (by decide)

end Hucksinoca
